import Mathlib

/-!
Shallow embedding of the Superstore sales dashboard (src/src/app.py) and
verification of its specification claims.

The program is a straight-line pandas pipeline:
load CSV → per-dimension multiselect filters → scalar metrics →
group-by/sum chart projections → CSV export.

Modelling conventions:
* A pandas cell that may be null (NaN/NaT) is an `Option`.
* Numeric cells (Sales, Profit) are `Option ℚ`; Year cells are `Option Int`
  after the loader's `astype("Int64")`; dates are encoded as
  `Option Nat` (`y*10000 + m*100 + d`, which orders like dates).
* A DataFrame is a schema of column-presence flags plus an ordered row list.
* `Series.isin` on a null cell is `false` (the selection lists produced by
  the sidebar contain no nulls).
* pandas `groupby(col)` sorts group keys ascending and drops null keys;
  `.sum()` skips nulls.  `sort_values` is modelled by a stable sort.
-/

namespace SalesApp

/-- One transaction record; each field is one column's cell, `none` = null. -/
structure Row where
  orderId : Option String
  orderDate : Option Nat
  shipMode : Option String
  category : Option String
  subCategory : Option String
  region : Option String
  state : Option String
  sales : Option ℚ
  profit : Option ℚ
  year : Option Int
deriving Repr, DecidableEq

/-- Which columns are present in the frame (`col in df.columns`). -/
structure Schema where
  hasOrderId : Bool
  hasOrderDate : Bool
  hasShipMode : Bool
  hasCategory : Bool
  hasSubCategory : Bool
  hasRegion : Bool
  hasState : Bool
  hasSales : Bool
  hasProfit : Bool
  hasYear : Bool
deriving Repr, DecidableEq

/-- A pandas DataFrame: column-presence schema and ordered rows. -/
structure DataFrame where
  schema : Schema
  rows : List Row
deriving Repr, DecidableEq

/-! ### Generic stable insertion sort (model of a stable `sort_values`) -/

/-- Insert `x` before the first element `y` with `le x y`. -/
def insertLe (le : α → α → Bool) (x : α) : List α → List α
  | [] => [x]
  | y :: ys => if le x y then x :: y :: ys else y :: insertLe le x ys

/-- Stable insertion sort by the boolean relation `le`. -/
def sortLe (le : α → α → Bool) : List α → List α
  | [] => []
  | x :: xs => insertLe le x (sortLe le xs)

theorem insertLe_perm (le : α → α → Bool) (x : α) (l : List α) :
    List.Perm (insertLe le x l) (x :: l) := by
  induction l with
  | nil => simp [insertLe]
  | cons y ys ih =>
    simp only [insertLe]
    by_cases h : le x y = true
    · rw [if_pos h]
    · rw [if_neg h]
      exact (ih.cons y).trans (List.Perm.swap x y ys)

theorem sortLe_perm (le : α → α → Bool) (l : List α) :
    List.Perm (sortLe le l) l := by
  induction l with
  | nil => simp [sortLe]
  | cons x xs ih =>
    exact (insertLe_perm le x (sortLe le xs)).trans (ih.cons x)

theorem mem_sortLe (le : α → α → Bool) (a : α) (l : List α) :
    a ∈ sortLe le l ↔ a ∈ l :=
  (sortLe_perm le l).mem_iff

theorem pairwise_insertLe (le : α → α → Bool)
    (htot : ∀ a b, le a b = true ∨ le b a = true)
    (htrans : ∀ a b c, le a b = true → le b c = true → le a c = true)
    (x : α) (l : List α)
    (hl : l.Pairwise (fun a b => le a b = true)) :
    (insertLe le x l).Pairwise (fun a b => le a b = true) := by
  induction l with
  | nil => simp [insertLe]
  | cons y ys ih =>
    simp only [insertLe]
    rcases List.pairwise_cons.mp hl with ⟨hy, hys⟩
    by_cases h : le x y = true
    · rw [if_pos h]
      refine List.pairwise_cons.mpr ⟨?_, hl⟩
      intro b hb
      rcases List.mem_cons.mp hb with hb | hb
      · exact hb ▸ h
      · exact htrans x y b h (hy b hb)
    · rw [if_neg h]
      refine List.pairwise_cons.mpr ⟨?_, ih hys⟩
      intro b hb
      rcases List.mem_cons.mp ((insertLe_perm le x ys).mem_iff.mp hb) with hb | hb
      · subst hb
        rcases htot b y with hxy | hyx
        · exact absurd hxy h
        · exact hyx
      · exact hy b hb

theorem pairwise_sortLe (le : α → α → Bool)
    (htot : ∀ a b, le a b = true ∨ le b a = true)
    (htrans : ∀ a b c, le a b = true → le b c = true → le a c = true)
    (l : List α) :
    (sortLe le l).Pairwise (fun a b => le a b = true) := by
  induction l with
  | nil => simp [sortLe]
  | cons x xs ih =>
    exact pairwise_insertLe le htot htrans x (sortLe le xs) ih

/-- Stability of `insertLe`: the subsequence of elements satisfying `p` is
unchanged except for a possible new head, provided `p`-elements mutually
satisfy `le` (they all tie). -/
theorem filter_insertLe (le : α → α → Bool) (p : α → Bool)
    (hsame : ∀ a b, p a = true → p b = true → le a b = true)
    (x : α) (l : List α) :
    (insertLe le x l).filter p =
      if p x then x :: l.filter p else l.filter p := by
  induction l with
  | nil =>
    simp only [insertLe, List.filter]
    cases hpx : p x <;> simp [hpx]
  | cons y ys ih =>
    simp only [insertLe]
    by_cases h : le x y = true
    · rw [if_pos h]
      cases hpx : p x <;> simp [List.filter, hpx]
    · rw [if_neg h]
      cases hpx : p x
      · cases hpy : p y <;> simp [List.filter, hpx, hpy, ih]
      · have hpy : p y = false := by
          cases hpy : p y
          · rfl
          · exact absurd (hsame x y hpx hpy) h
        simp [List.filter, hpx, hpy, ih]

/-- Stability of `sortLe`: the subsequence of elements satisfying `p` is
preserved, provided `p`-elements mutually satisfy `le`. -/
theorem filter_sortLe (le : α → α → Bool) (p : α → Bool)
    (hsame : ∀ a b, p a = true → p b = true → le a b = true)
    (l : List α) :
    (sortLe le l).filter p = l.filter p := by
  induction l with
  | nil => simp [sortLe]
  | cons x xs ih =>
    simp only [sortLe]
    rw [filter_insertLe le p hsame, ih]
    cases hpx : p x <;> simp [List.filter, hpx]

/-! ### First-seen deduplication (model of pandas `Series.unique`) -/

/-- Helper for `uniqueFS`: keep the values not seen yet, first occurrence
first, threading the set of already-seen values. -/
def uniqueGo [DecidableEq α] (seen : List α) : List α → List α
  | [] => []
  | a :: as => if a ∈ seen then uniqueGo seen as else a :: uniqueGo (a :: seen) as

/-- Distinct values in first-occurrence order, like `Series.unique`. -/
def uniqueFS [DecidableEq α] (l : List α) : List α := uniqueGo [] l

theorem mem_uniqueGo [DecidableEq α] (a : α) (seen l : List α) :
    a ∈ uniqueGo seen l ↔ a ∈ l ∧ a ∉ seen := by
  induction l generalizing seen with
  | nil => simp [uniqueGo]
  | cons x xs ih =>
    simp only [uniqueGo]
    by_cases hx : x ∈ seen
    · rw [if_pos hx, ih]
      constructor
      · exact fun ⟨h1, h2⟩ => ⟨List.mem_cons_of_mem x h1, h2⟩
      · rintro ⟨h1, h2⟩
        rcases List.mem_cons.mp h1 with h1 | h1
        · exact absurd (h1 ▸ hx) h2
        · exact ⟨h1, h2⟩
    · rw [if_neg hx]
      constructor
      · intro h
        rcases List.mem_cons.mp h with h | h
        · exact ⟨h ▸ List.mem_cons_self x xs, h ▸ hx⟩
        · rcases (ih (x :: seen)).mp h with ⟨h1, h2⟩
          exact ⟨List.mem_cons_of_mem x h1,
            fun hs => h2 (List.mem_cons_of_mem x hs)⟩
      · rintro ⟨h1, h2⟩
        rcases List.mem_cons.mp h1 with h1 | h1
        · exact h1 ▸ List.mem_cons_self x _
        · by_cases hax : a = x
          · exact hax ▸ List.mem_cons_self x _
          · refine List.mem_cons_of_mem x ((ih (x :: seen)).mpr ⟨h1, ?_⟩)
            intro hs
            rcases List.mem_cons.mp hs with hs | hs
            · exact hax hs
            · exact h2 hs

theorem nodup_uniqueGo [DecidableEq α] (seen l : List α) :
    (uniqueGo seen l).Nodup := by
  induction l generalizing seen with
  | nil => simp [uniqueGo]
  | cons x xs ih =>
    simp only [uniqueGo]
    by_cases hx : x ∈ seen
    · rw [if_pos hx]
      exact ih seen
    · rw [if_neg hx]
      refine List.nodup_cons.mpr ⟨?_, ih (x :: seen)⟩
      intro h
      exact ((mem_uniqueGo x (x :: seen) xs).mp h).2 (List.mem_cons_self x seen)

theorem mem_uniqueFS [DecidableEq α] (a : α) (l : List α) :
    a ∈ uniqueFS l ↔ a ∈ l := by
  unfold uniqueFS
  rw [mem_uniqueGo]
  simp

theorem nodup_uniqueFS [DecidableEq α] (l : List α) :
    (uniqueFS l).Nodup := nodup_uniqueGo [] l

/-! ### Filter Builder (src/src/app.py lines 53–83) -/

/-- `Series.isin(sel)` applied to one cell: a null cell never matches. -/
def isin [BEq α] (v : Option α) (sel : List α) : Bool :=
  match v with
  | none => false
  | some x => sel.contains x

/-- Sidebar options for a string column (`multiselect_for_column`):
distinct non-null values sorted by their string form. -/
def optionsStr (get : Row → Option String) (df : DataFrame) : List String :=
  sortLe (fun a b => decide (a ≤ b)) (uniqueFS (df.rows.filterMap get))

/-- Sidebar options for the Year column (`numeric_int=True` path):
distinct non-null integer years sorted by their string form
(`key=lambda x: str(x)`). -/
def optionsYear (df : DataFrame) : List Int :=
  sortLe (fun a b => decide (toString a ≤ toString b))
    (uniqueFS (df.rows.filterMap Row.year))

/-- The four sidebar selections; `none` models a multiselect that was not
created because its column is absent (`multiselect_for_column` returns
`None`), so no predicate is applied for that dimension. -/
structure Selection where
  category : Option (List String)
  subCategory : Option (List String)
  region : Option (List String)
  year : Option (List Int)
deriving Repr, DecidableEq

/-- The default selection: every option selected for each present column
(`st.sidebar.multiselect(..., default=options)`), `None` for absent ones. -/
def defaultSelection (df : DataFrame) : Selection where
  category := if df.schema.hasCategory then some (optionsStr Row.category df) else none
  subCategory := if df.schema.hasSubCategory then some (optionsStr Row.subCategory df) else none
  region := if df.schema.hasRegion then some (optionsStr Row.region df) else none
  year := if df.schema.hasYear then some (optionsYear df) else none

/-- The filtered dataframe (src/src/app.py lines 75–83): start from a copy of
`df` and successively apply `isin` filters for each non-`None` selection; the
Year filter additionally re-checks column presence. -/
def filtered_df (df : DataFrame) (s : Selection) : DataFrame :=
  let r0 := df.rows
  let r1 := match s.category with
    | none => r0
    | some sel => r0.filter (fun r => isin r.category sel)
  let r2 := match s.subCategory with
    | none => r1
    | some sel => r1.filter (fun r => isin r.subCategory sel)
  let r3 := match s.region with
    | none => r2
    | some sel => r2.filter (fun r => isin r.region sel)
  let r4 := match s.year with
    | none => r3
    | some sel =>
        if df.schema.hasYear then r3.filter (fun r => isin r.year sel) else r3
  { schema := df.schema, rows := r4 }

/-- The row predicate realized by the successive filters of `filtered_df`,
written in the association order produced by composing the four passes. -/
def matchesSel (sch : Schema) (s : Selection) (r : Row) : Bool :=
  (match s.year with
    | none => true
    | some sel => !sch.hasYear || isin r.year sel) &&
  ((match s.region with
    | none => true
    | some sel => isin r.region sel) &&
  ((match s.subCategory with
    | none => true
    | some sel => isin r.subCategory sel) &&
  (match s.category with
    | none => true
    | some sel => isin r.category sel)))

theorem filtered_df_schema (df : DataFrame) (s : Selection) :
    (filtered_df df s).schema = df.schema := by
  rcases s with ⟨c, sc, rg, y⟩
  cases c <;> cases sc <;> cases rg <;> cases y <;> rfl

/-- The filtered rows are exactly one `List.filter` over the input rows. -/
theorem filtered_df_rows (df : DataFrame) (s : Selection) :
    (filtered_df df s).rows = df.rows.filter (matchesSel df.schema s) := by
  rcases s with ⟨c, sc, rg, y⟩
  cases c <;> cases sc <;> cases rg <;> cases y <;>
    by_cases hy : df.schema.hasYear = true <;>
    simp only [filtered_df, List.filter_filter, hy, if_true, ite_true,
      ite_false, if_neg, reduceIte] <;>
    symm <;>
    first
      | (refine List.filter_eq_self.mpr fun r _ => ?_
         simp [matchesSel, isin, hy])
      | (refine List.filter_congr fun r _ => ?_
         simp [matchesSel, isin, hy])

/-- Spec-side membership test: a cell value is a member of the selected
set.  A null cell has no value, hence is a member of no selected set. -/
def specMember [BEq α] (v : Option α) (sel : List α) : Bool :=
  match v with
  | none => false
  | some x => sel.contains x

theorem specMember_eq_isin [BEq α] (v : Option α) (sel : List α) :
    specMember v sel = isin v sel := by
  cases v <;> rfl

theorem specMember_nil [BEq α] (v : Option α) : specMember v ([] : List α) = false := by
  cases v <;> rfl

/-- Modelled from the spec's filtering contract, for comparison with the
code's `filtered_df`: a record passes when, for every dimension with an
active predicate, its value in that dimension is a member of the selected
set; dimensions with no active predicate pass all rows. -/
def specMatches (s : Selection) (r : Row) : Bool :=
  (match s.category with
    | none => true
    | some sel => specMember r.category sel) &&
  (match s.subCategory with
    | none => true
    | some sel => specMember r.subCategory sel) &&
  (match s.region with
    | none => true
    | some sel => specMember r.region sel) &&
  (match s.year with
    | none => true
    | some sel => specMember r.year sel)

theorem matchesSel_eq_specMatches (sch : Schema) (s : Selection) (r : Row)
    (hy : s.year.isSome → sch.hasYear = true) :
    matchesSel sch s r = specMatches s r := by
  rcases s with ⟨c, sc, rg, y⟩
  cases y with
  | none =>
    cases c <;> cases sc <;> cases rg <;>
      simp [matchesSel, specMatches, specMember_eq_isin, Bool.and_comm,
        Bool.and_assoc, Bool.and_left_comm]
  | some yv =>
    have hy2 : sch.hasYear = true := hy (by simp)
    cases c <;> cases sc <;> cases rg <;>
      simp [matchesSel, specMatches, specMember_eq_isin, hy2, Bool.and_comm,
        Bool.and_assoc, Bool.and_left_comm]

/-! ### Claim C1: filtering soundness/completeness -/

/-- Example helper: build a row from the six cells the claims exercise
(order id, category, sub-category, region, state, sales, profit, year). -/
def mkRow (oid c sc rg st : Option String) (sl pf : Option ℚ)
    (y : Option Int) : Row :=
  { orderId := oid, orderDate := none, shipMode := none, category := c,
    subCategory := sc, region := rg, state := st, sales := sl,
    profit := pf, year := y }

/-- C1.  For every dataset and every filter selection (with any active Year
predicate implying the Year column exists, as holds for all selections the
sidebar can produce), the filtered view contains exactly the records
satisfying the AND of the per-dimension set-membership predicates of the
spec (`specMatches`); inactive dimensions pass all rows; input row ordering
is preserved (the view is a sublist of the dataset); and an empty selected
set on a present dimension yields an empty view. -/
theorem C1_filter_sound_complete (df : DataFrame) (s : Selection)
    (hy : s.year.isSome → df.schema.hasYear = true) :
    (filtered_df df s).rows = df.rows.filter (specMatches s) ∧
    (∀ r, r ∈ (filtered_df df s).rows ↔ r ∈ df.rows ∧ specMatches s r = true) ∧
    (filtered_df df s).rows.Sublist df.rows ∧
    ((s.category = some [] ∧ df.schema.hasCategory = true) ∨
      (s.subCategory = some [] ∧ df.schema.hasSubCategory = true) ∨
      (s.region = some [] ∧ df.schema.hasRegion = true) ∨
      (s.year = some [] ∧ df.schema.hasYear = true) →
      (filtered_df df s).rows = []) := by
  have eq1 : (filtered_df df s).rows = df.rows.filter (specMatches s) := by
    rw [filtered_df_rows]
    exact List.filter_congr fun r _ => matchesSel_eq_specMatches df.schema s r hy
  refine ⟨eq1, ?_, ?_, ?_⟩
  · intro r
    rw [eq1, List.mem_filter]
  · rw [eq1]
    exact List.filter_sublist df.rows
  · intro h
    rw [eq1]
    refine List.filter_eq_nil_iff.mpr fun r _ => ?_
    rcases h with ⟨hc, -⟩ | ⟨hc, -⟩ | ⟨hc, -⟩ | ⟨hc, -⟩ <;>
      simp [specMatches, hc, specMember_nil]

/-- Concrete two-row dataset with only a Category column, for witnesses. -/
def dfC1 : DataFrame :=
  ⟨⟨false, false, false, true, false, false, false, false, false, false⟩,
    [mkRow none (some "Chairs") none none none none none none,
      mkRow none (some "Tables") none none none none none none]⟩

/-- Concrete selection keeping only the "Chairs" category. -/
def selC1 : Selection := ⟨some ["Chairs"], none, none, none⟩

/-- Witness for C1 at a concrete dataset and selection: the hypothesis is
discharged (the Year predicate is inactive) and the filtered view evaluates
to exactly the "Chairs" row. -/
theorem C1_filter_sound_complete_witness :
    (filtered_df dfC1 selC1).rows = dfC1.rows.filter (specMatches selC1) ∧
    (filtered_df dfC1 selC1).rows =
      [mkRow none (some "Chairs") none none none none none none] :=
  ⟨(C1_filter_sound_complete dfC1 selC1 (fun h => by simp [selC1] at h)).1,
    by rfl⟩

/-! ### Default selection facts (claims C2 and C10) -/

theorem isin_some_of_mem [BEq α] [LawfulBEq α] (v : α) (sel : List α)
    (h : v ∈ sel) : isin (some v) sel = true := by
  simp only [isin, List.contains]
  exact List.elem_eq_true_of_mem h

theorem mem_optionsStr (get : Row → Option String) (df : DataFrame)
    (r : Row) (v : String) (hr : r ∈ df.rows) (hv : get r = some v) :
    v ∈ optionsStr get df := by
  unfold optionsStr
  rw [mem_sortLe, mem_uniqueFS]
  exact List.mem_filterMap.mpr ⟨r, hr, hv⟩

theorem mem_optionsYear (df : DataFrame) (r : Row) (v : Int)
    (hr : r ∈ df.rows) (hv : r.year = some v) : v ∈ optionsYear df := by
  unfold optionsYear
  rw [mem_sortLe, mem_uniqueFS]
  exact List.mem_filterMap.mpr ⟨r, hr, hv⟩

/-- A row whose present-dimension cells are all non-null satisfies the
predicate realized by the default (all options selected) selection. -/
theorem matchesSel_default (df : DataFrame) (r : Row) (hr : r ∈ df.rows)
    (hc : df.schema.hasCategory = true → r.category.isSome)
    (hsc : df.schema.hasSubCategory = true → r.subCategory.isSome)
    (hrg : df.schema.hasRegion = true → r.region.isSome)
    (hyr : df.schema.hasYear = true → r.year.isSome) :
    matchesSel df.schema (defaultSelection df) r = true := by
  simp only [matchesSel, Bool.and_eq_true]
  refine ⟨?_, ?_, ?_, ?_⟩
  · by_cases h : df.schema.hasYear = true
    · rcases Option.isSome_iff_exists.mp (hyr h) with ⟨v, hv⟩
      simp only [defaultSelection, h, if_pos]
      simp [h, hv, isin_some_of_mem v _ (mem_optionsYear df r v hr hv)]
    · simp [defaultSelection, h]
  · by_cases h : df.schema.hasRegion = true
    · rcases Option.isSome_iff_exists.mp (hrg h) with ⟨v, hv⟩
      simp only [defaultSelection, h, if_pos]
      simp [hv, isin_some_of_mem v _ (mem_optionsStr Row.region df r v hr hv)]
    · simp [defaultSelection, h]
  · by_cases h : df.schema.hasSubCategory = true
    · rcases Option.isSome_iff_exists.mp (hsc h) with ⟨v, hv⟩
      simp only [defaultSelection, h, if_pos]
      simp [hv, isin_some_of_mem v _ (mem_optionsStr Row.subCategory df r v hr hv)]
    · simp [defaultSelection, h]
  · by_cases h : df.schema.hasCategory = true
    · rcases Option.isSome_iff_exists.mp (hc h) with ⟨v, hv⟩
      simp only [defaultSelection, h, if_pos]
      simp [hv, isin_some_of_mem v _ (mem_optionsStr Row.category df r v hr hv)]
    · simp [defaultSelection, h]

theorem dataFrame_eq (a b : DataFrame) (h1 : a.schema = b.schema)
    (h2 : a.rows = b.rows) : a = b := by
  cases a
  cases b
  simp_all

/-! ### Claim C2: filter identity law under the default selection -/

/-- C2 as literally claimed is refuted by `C2_filter_default_identity_cex`:
a record with a null cell in a present dimension is dropped even under the
default all-options selection, because the options contain only non-null
values and `isin` never matches a null cell.  The amended claim: the
identity law holds for every dataset whose rows are non-null in every
present dimension column. -/
theorem C2_filter_default_identity (df : DataFrame)
    (h : ∀ r ∈ df.rows,
      (df.schema.hasCategory = true → r.category.isSome) ∧
      (df.schema.hasSubCategory = true → r.subCategory.isSome) ∧
      (df.schema.hasRegion = true → r.region.isSome) ∧
      (df.schema.hasYear = true → r.year.isSome)) :
    filtered_df df (defaultSelection df) = df := by
  have hrows : (filtered_df df (defaultSelection df)).rows = df.rows := by
    rw [filtered_df_rows]
    refine List.filter_eq_self.mpr fun r hr => ?_
    rcases h r hr with ⟨hc, hsc, hrg, hyr⟩
    exact matchesSel_default df r hr hc hsc hrg hyr
  have hsch : (filtered_df df (defaultSelection df)).schema = df.schema :=
    filtered_df_schema df (defaultSelection df)
  exact dataFrame_eq _ _ hsch hrows

/-- Dataset on which the claim as stated fails: Category is present and the
second row's Category cell is null. -/
def dfC2 : DataFrame :=
  ⟨⟨false, false, false, true, false, false, false, false, false, false⟩,
    [mkRow none (some "Chairs") none none none none none none,
      mkRow none none none none none none none none]⟩

/-- Counterexample to C2 as stated: filtering `dfC2` with the default
(all options selected) selection does not return the original dataset —
the null-Category row is dropped. -/
theorem C2_filter_default_identity_cex :
    filtered_df dfC2 (defaultSelection dfC2) ≠ dfC2 := by decide

/-- Witness for the amended C2 on a concrete all-non-null dataset. -/
theorem C2_filter_default_identity_witness :
    filtered_df dfC1 (defaultSelection dfC1) = dfC1 :=
  C2_filter_default_identity dfC1 (by decide)

/-! ### Claim C10: implicit null-row exclusion at the filter interface -/

/-- C10.  The selectable options of every present dimension are distinct
non-null values drawn from the column (`series.dropna().unique()`), and a
record with a null cell in a present dimension is excluded from the
filtered view even under the default all-options selection, since a null
cell never satisfies the `isin` membership predicate. -/
theorem C10_null_row_exclusion (df : DataFrame) (r : Row) :
    ((optionsStr Row.category df).Nodup ∧
      ∀ v ∈ optionsStr Row.category df, some v ∈ df.rows.map Row.category) ∧
    ((optionsStr Row.subCategory df).Nodup ∧
      ∀ v ∈ optionsStr Row.subCategory df, some v ∈ df.rows.map Row.subCategory) ∧
    ((optionsStr Row.region df).Nodup ∧
      ∀ v ∈ optionsStr Row.region df, some v ∈ df.rows.map Row.region) ∧
    ((optionsYear df).Nodup ∧
      ∀ v ∈ optionsYear df, some v ∈ df.rows.map Row.year) ∧
    (((df.schema.hasCategory = true ∧ r.category = none) ∨
      (df.schema.hasSubCategory = true ∧ r.subCategory = none) ∨
      (df.schema.hasRegion = true ∧ r.region = none) ∨
      (df.schema.hasYear = true ∧ r.year = none)) →
      r ∉ (filtered_df df (defaultSelection df)).rows) := by
  have hopt : ∀ get : Row → Option String,
      (optionsStr get df).Nodup ∧
      ∀ v ∈ optionsStr get df, some v ∈ df.rows.map get := by
    intro get
    constructor
    · exact ((sortLe_perm _ _).nodup_iff).mpr (nodup_uniqueFS _)
    · intro v hv
      rw [optionsStr, mem_sortLe, mem_uniqueFS] at hv
      rcases List.mem_filterMap.mp hv with ⟨a, ha, hae⟩
      exact List.mem_map.mpr ⟨a, ha, hae⟩
  refine ⟨hopt Row.category, hopt Row.subCategory, hopt Row.region, ?_, ?_⟩
  · constructor
    · exact ((sortLe_perm _ _).nodup_iff).mpr (nodup_uniqueFS _)
    · intro v hv
      rw [optionsYear, mem_sortLe, mem_uniqueFS] at hv
      rcases List.mem_filterMap.mp hv with ⟨a, ha, hae⟩
      exact List.mem_map.mpr ⟨a, ha, hae⟩
  · intro hnull hmem
    rw [filtered_df_rows, List.mem_filter] at hmem
    rcases hmem with ⟨-, hmatch⟩
    rcases hnull with ⟨hflag, hcell⟩ | ⟨hflag, hcell⟩ | ⟨hflag, hcell⟩ | ⟨hflag, hcell⟩ <;>
      simp [matchesSel, defaultSelection, hflag, hcell, isin] at hmatch

/-- Witness for C10: a concrete dataset where the null-Category row of
`dfC2` is excluded from the default-selection view. -/
theorem C10_null_row_exclusion_witness :
    mkRow none none none none none none none none ∉
      (filtered_df dfC2 (defaultSelection dfC2)).rows :=
  (C10_null_row_exclusion dfC2 (mkRow none none none none none none none none)).2.2.2.2
    (Or.inl ⟨by decide, by decide⟩)

/-! ### Metrics Calculator (src/src/app.py lines 88–95) -/

/-- `filtered_df["Sales"].sum() if "Sales" in filtered_df.columns else 0.0`;
pandas `sum` skips nulls. -/
def total_sales (df : DataFrame) : ℚ :=
  if df.schema.hasSales then (df.rows.filterMap Row.sales).sum else 0

/-- `filtered_df["Profit"].sum() if "Profit" in filtered_df.columns else 0.0`. -/
def total_profit (df : DataFrame) : ℚ :=
  if df.schema.hasProfit then (df.rows.filterMap Row.profit).sum else 0

/-- `filtered_df["Order ID"].nunique()` (count of distinct non-null order
ids) when the column exists, else `len(filtered_df)`. -/
def total_orders (df : DataFrame) : Nat :=
  if df.schema.hasOrderId then (uniqueFS (df.rows.filterMap Row.orderId)).length
  else df.rows.length

/-- `(total_profit / total_sales * 100) if total_sales and total_sales > 0
else 0`: the Python condition is the truthiness conjunction
`total_sales ≠ 0 and total_sales > 0`. -/
def avg_profit_margin (df : DataFrame) : ℚ :=
  if total_sales df ≠ 0 ∧ total_sales df > 0 then
    total_profit df / total_sales df * 100
  else 0

/-! ### Claim C3: average profit margin -/

/-- C3.  For every view, `avg_profit_margin` equals
`total_profit / total_sales * 100` exactly when `total_sales > 0` and is
exactly `0` otherwise — in particular when `total_sales = 0`; the zero case
is an ordinary defined value of the (total) function, not an error. -/
theorem C3_avg_margin (df : DataFrame) :
    avg_profit_margin df =
      (if 0 < total_sales df then total_profit df / total_sales df * 100
        else 0) ∧
    (total_sales df = 0 → avg_profit_margin df = 0) := by
  constructor
  · unfold avg_profit_margin
    rcases lt_trichotomy (total_sales df) 0 with h | h | h
    · rw [if_neg (by simp [h, le_of_lt h, not_lt.mpr (le_of_lt h)]),
        if_neg (not_lt.mpr (le_of_lt h))]
    · rw [if_neg (by simp [h]), if_neg (by simp [h])]
    · rw [if_pos ⟨ne_of_gt h, h⟩, if_pos h]
  · intro h
    unfold avg_profit_margin
    rw [if_neg (by simp [h])]

/-- Concrete single-row dataset: Sales 100, Profit 20 (spec scenario). -/
def dfM : DataFrame :=
  ⟨⟨true, false, false, true, false, true, false, true, true, true⟩,
    [mkRow (some "O1") (some "Chairs") none (some "East") none
      (some 100) (some 20) (some 2015)]⟩

/-- The same schema with no rows at all (empty view). -/
def dfE : DataFrame :=
  ⟨⟨true, false, false, true, false, true, false, true, true, true⟩, []⟩

/-- Witness for C3: the margin evaluates to 20% on the 100/20 dataset, and
to exactly 0 on the empty view, instantiating both branches. -/
theorem C3_avg_margin_witness :
    avg_profit_margin dfM = 20 ∧ avg_profit_margin dfE = 0 := by
  have hts : total_sales dfM = 100 := by simp [total_sales, dfM, mkRow]
  have htp : total_profit dfM = 20 := by simp [total_profit, dfM, mkRow]
  have htse : total_sales dfE = 0 := by simp [total_sales, dfE]
  refine ⟨?_, (C3_avg_margin dfE).2 htse⟩
  rw [(C3_avg_margin dfM).1, hts, htp]
  norm_num

/-! ### Claim C4: the three additive metrics -/

theorem sum_filterMap_getD (f : α → Option ℚ) (l : List α) :
    (l.filterMap f).sum = (l.map (fun a => (f a).getD 0)).sum := by
  induction l with
  | nil => simp
  | cons a as ih =>
    cases hfa : f a <;>
      simp [List.filterMap_cons, hfa, ih]

theorem length_uniqueFS_eq_card [DecidableEq α] (l : List α) :
    (uniqueFS l).length = l.toFinset.card := by
  have h1 : (uniqueFS l).toFinset = l.toFinset := by
    refine Finset.ext fun a => ?_
    simp [List.mem_toFinset, mem_uniqueFS]
  rw [← h1, List.toFinset_card_of_nodup (nodup_uniqueFS l)]

/-- C4.  For every view: totalSales is the sum over all rows of the Sales
cell (nulls contributing 0) when the column is present and 0 otherwise;
likewise totalProfit; and orderCount is the number of distinct non-null
Order ID values when that column exists, else the row count. -/
theorem C4_metrics (df : DataFrame) :
    total_sales df =
      (if df.schema.hasSales then
        (df.rows.map (fun r => r.sales.getD 0)).sum else 0) ∧
    total_profit df =
      (if df.schema.hasProfit then
        (df.rows.map (fun r => r.profit.getD 0)).sum else 0) ∧
    total_orders df =
      (if df.schema.hasOrderId then (df.rows.filterMap Row.orderId).toFinset.card
        else df.rows.length) := by
  refine ⟨?_, ?_, ?_⟩
  · unfold total_sales
    by_cases h : df.schema.hasSales = true <;>
      simp [h, sum_filterMap_getD]
  · unfold total_profit
    by_cases h : df.schema.hasProfit = true <;>
      simp [h, sum_filterMap_getD]
  · unfold total_orders
    by_cases h : df.schema.hasOrderId = true <;>
      simp [h, length_uniqueFS_eq_card]

/-- Witness for C4: concrete evaluation on the 100/20 dataset. -/
theorem C4_metrics_witness :
    (total_sales dfM = 100 ∧ total_profit dfM = 20 ∧ total_orders dfM = 1) ∧
    total_sales dfM =
      (if dfM.schema.hasSales then
        (dfM.rows.map (fun r => r.sales.getD 0)).sum else 0) := by
  refine ⟨⟨?_, ?_, ?_⟩, (C4_metrics dfM).1⟩ <;>
    simp [total_sales, total_profit, total_orders, uniqueFS, uniqueGo, dfM, mkRow]

/-! ### Chart Projections (src/src/app.py lines 108–172) -/

/-- pandas `groupby(key)[meas].sum().reset_index()` with the defaults
`sort=True` and `dropna=True`: the distinct non-null keys sorted ascending
by `le`, each paired with the null-skipping sum of the measure over the
rows carrying that key. -/
def groupSum [DecidableEq κ] (le : κ → κ → Bool) (key : Row → Option κ)
    (meas : Row → Option ℚ) (rows : List Row) : List (κ × ℚ) :=
  (sortLe le (uniqueFS (rows.filterMap key))).map
    (fun k =>
      (k, ((rows.filter (fun r => decide (key r = some k))).filterMap meas).sum))

/-- Ascending string order (Python `sorted` on str keys). -/
def strLe (a b : String) : Bool := decide (a ≤ b)

/-- `sort_values("Sales", ascending=False)` order on aggregate entries. -/
def salesDescLe (a b : κ × ℚ) : Bool := decide (b.2 ≤ a.2)

/-- Sub-category ranking `prod_df` (lines 127–132): group by Sub-Category,
sum Sales, sort descending by Sales; skipped when columns are missing or
the view is empty. -/
def prod_df (df : DataFrame) : Option (List (String × ℚ)) :=
  if df.schema.hasSubCategory = true ∧ df.schema.hasSales = true ∧
      df.rows ≠ [] then
    some (sortLe salesDescLe (groupSum strLe Row.subCategory Row.sales df.rows))
  else none

/-- Region share `reg_df` (line 141): group by Region, sum Sales. -/
def reg_df (df : DataFrame) : Option (List (String × ℚ)) :=
  if df.schema.hasRegion = true ∧ df.schema.hasSales = true ∧
      df.rows ≠ [] then
    some (groupSum strLe Row.region Row.sales df.rows)
  else none

/-- Ship-mode ranking `ship_df` (lines 150–153). -/
def ship_df (df : DataFrame) : Option (List (String × ℚ)) :=
  if df.schema.hasShipMode = true ∧ df.schema.hasSales = true ∧
      df.rows ≠ [] then
    some (sortLe salesDescLe (groupSum strLe Row.shipMode Row.sales df.rows))
  else none

/-- Top-10 states `state_sales` (lines 162–168): group by State, sum Sales,
sort descending, `head(10)`. -/
def state_sales (df : DataFrame) : Option (List (String × ℚ)) :=
  if df.schema.hasState = true ∧ df.schema.hasSales = true ∧
      df.rows ≠ [] then
    some ((sortLe salesDescLe
      (groupSum strLe Row.state Row.sales df.rows)).take 10)
  else none

/-- Lexicographic order on the (Order Date, Year) group key. -/
def dateYearLe (a b : Nat × Option Int) : Bool :=
  decide (a.1 < b.1) ||
    (decide (a.1 = b.1) &&
      (match a.2, b.2 with
        | none, _ => true
        | some _, none => false
        | some x, some y => decide (x ≤ y)))

/-- Group key of the time-series chart: `["Order Date"] + (["Year"] if
present)`; a row with a null component is dropped by `groupby`. -/
def trendKey (hasYear : Bool) (r : Row) : Option (Nat × Option Int) :=
  if hasYear then
    match r.orderDate, r.year with
    | some d, some y => some (d, some y)
    | _, _ => none
  else r.orderDate.map (fun d => (d, none))

/-- Time-series `trend_df` (lines 110–116): drop rows with null Order Date
or Sales, group by (Order Date, Year when present), sum Sales. -/
def trend_df (df : DataFrame) : Option (List ((Nat × Option Int) × ℚ)) :=
  if df.schema.hasOrderDate = true ∧ df.schema.hasSales = true ∧
      df.rows ≠ [] then
    some (groupSum dateYearLe (trendKey df.schema.hasYear) Row.sales
      (df.rows.filter (fun r => r.orderDate.isSome && r.sales.isSome)))
  else none

/-! ### Dropping the State column -/

/-- Remove the State cell of one row. -/
def eraseStateRow (r : Row) : Row := { r with state := none }

/-- The same dataset without its State column. -/
def eraseState (df : DataFrame) : DataFrame :=
  ⟨{ df.schema with hasState := false }, df.rows.map eraseStateRow⟩

theorem groupSum_eraseState [DecidableEq κ] (le : κ → κ → Bool)
    (key : Row → Option κ) (meas : Row → Option ℚ) (rows : List Row)
    (hkey : ∀ r, key (eraseStateRow r) = key r)
    (hmeas : ∀ r, meas (eraseStateRow r) = meas r) :
    groupSum le key meas (rows.map eraseStateRow) =
      groupSum le key meas rows := by
  unfold groupSum
  rw [List.filterMap_map]
  have h1 : key ∘ eraseStateRow = key := funext hkey
  rw [h1]
  refine congrArg
    (fun f => List.map f (sortLe le (uniqueFS (List.filterMap key rows))))
    (funext fun k => ?_)
  rw [List.filter_map, List.filterMap_map]
  have h2 : (fun r => decide (key r = some k)) ∘ eraseStateRow =
      (fun r => decide (key r = some k)) := by
    funext r
    simp [hkey r]
  have h3 : meas ∘ eraseStateRow = meas := funext hmeas
  rw [h2, h3]

theorem pairwise_sortDesc (l : List (κ × ℚ)) :
    (sortLe salesDescLe l).Pairwise (fun a b => b.2 ≤ a.2) := by
  have htot : ∀ a b : κ × ℚ, salesDescLe a b = true ∨ salesDescLe b a = true := by
    intro a b
    rcases le_total b.2 a.2 with h | h
    · exact Or.inl (decide_eq_true h)
    · exact Or.inr (decide_eq_true h)
  have htrans : ∀ a b c : κ × ℚ,
      salesDescLe a b = true → salesDescLe b c = true →
      salesDescLe a c = true := by
    intro a b c hab hbc
    exact decide_eq_true (le_trans (of_decide_eq_true hbc) (of_decide_eq_true hab))
  exact (pairwise_sortLe salesDescLe htot htrans l).imp of_decide_eq_true

theorem mem_groupSum [DecidableEq κ] (le : κ → κ → Bool) (key : Row → Option κ)
    (meas : Row → Option ℚ) (rows : List Row) (p : κ × ℚ)
    (hp : p ∈ groupSum le key meas rows) :
    p.2 = ((rows.filter (fun r => decide (key r = some p.1))).filterMap meas).sum ∧
    p.1 ∈ rows.filterMap key := by
  unfold groupSum at hp
  rcases List.mem_map.mp hp with ⟨k, hk, hke⟩
  rw [mem_sortLe, mem_uniqueFS] at hk
  rw [← hke]
  exact ⟨rfl, hk⟩

theorem groupSum_fst [DecidableEq κ] (le : κ → κ → Bool) (key : Row → Option κ)
    (meas : Row → Option ℚ) (rows : List Row) :
    (groupSum le key meas rows).map Prod.fst =
      sortLe le (uniqueFS (rows.filterMap key)) := by
  unfold groupSum
  rw [List.map_map]
  exact List.map_id _

/-! ### State-independence of the rest of the pipeline -/

theorem prod_df_eraseState (df : DataFrame) :
    prod_df (eraseState df) = prod_df df := by
  by_cases h : df.schema.hasSubCategory = true ∧ df.schema.hasSales = true ∧
      df.rows ≠ []
  · have h2 : (eraseState df).schema.hasSubCategory = true ∧
        (eraseState df).schema.hasSales = true ∧ (eraseState df).rows ≠ [] :=
      ⟨h.1, h.2.1, by simp [eraseState, h.2.2]⟩
    unfold prod_df
    rw [if_pos h2, if_pos h,
      show (eraseState df).rows = df.rows.map eraseStateRow from rfl,
      groupSum_eraseState strLe Row.subCategory Row.sales df.rows
        (fun r => rfl) (fun r => rfl)]
  · have h2 : ¬((eraseState df).schema.hasSubCategory = true ∧
        (eraseState df).schema.hasSales = true ∧ (eraseState df).rows ≠ []) :=
      fun hcon => h ⟨hcon.1, hcon.2.1,
        fun hnil => hcon.2.2 (by simp [eraseState, hnil])⟩
    unfold prod_df
    rw [if_neg h2, if_neg h]

theorem reg_df_eraseState (df : DataFrame) :
    reg_df (eraseState df) = reg_df df := by
  by_cases h : df.schema.hasRegion = true ∧ df.schema.hasSales = true ∧
      df.rows ≠ []
  · have h2 : (eraseState df).schema.hasRegion = true ∧
        (eraseState df).schema.hasSales = true ∧ (eraseState df).rows ≠ [] :=
      ⟨h.1, h.2.1, by simp [eraseState, h.2.2]⟩
    unfold reg_df
    rw [if_pos h2, if_pos h,
      show (eraseState df).rows = df.rows.map eraseStateRow from rfl,
      groupSum_eraseState strLe Row.region Row.sales df.rows
        (fun r => rfl) (fun r => rfl)]
  · have h2 : ¬((eraseState df).schema.hasRegion = true ∧
        (eraseState df).schema.hasSales = true ∧ (eraseState df).rows ≠ []) :=
      fun hcon => h ⟨hcon.1, hcon.2.1,
        fun hnil => hcon.2.2 (by simp [eraseState, hnil])⟩
    unfold reg_df
    rw [if_neg h2, if_neg h]

theorem ship_df_eraseState (df : DataFrame) :
    ship_df (eraseState df) = ship_df df := by
  by_cases h : df.schema.hasShipMode = true ∧ df.schema.hasSales = true ∧
      df.rows ≠ []
  · have h2 : (eraseState df).schema.hasShipMode = true ∧
        (eraseState df).schema.hasSales = true ∧ (eraseState df).rows ≠ [] :=
      ⟨h.1, h.2.1, by simp [eraseState, h.2.2]⟩
    unfold ship_df
    rw [if_pos h2, if_pos h,
      show (eraseState df).rows = df.rows.map eraseStateRow from rfl,
      groupSum_eraseState strLe Row.shipMode Row.sales df.rows
        (fun r => rfl) (fun r => rfl)]
  · have h2 : ¬((eraseState df).schema.hasShipMode = true ∧
        (eraseState df).schema.hasSales = true ∧ (eraseState df).rows ≠ []) :=
      fun hcon => h ⟨hcon.1, hcon.2.1,
        fun hnil => hcon.2.2 (by simp [eraseState, hnil])⟩
    unfold ship_df
    rw [if_neg h2, if_neg h]

theorem trend_df_eraseState (df : DataFrame) :
    trend_df (eraseState df) = trend_df df := by
  have hfilter : (eraseState df).rows.filter
        (fun r => r.orderDate.isSome && r.sales.isSome) =
      (df.rows.filter (fun r => r.orderDate.isSome && r.sales.isSome)).map
        eraseStateRow := by
    rw [show (eraseState df).rows = df.rows.map eraseStateRow from rfl,
      List.filter_map,
      show ((fun r : Row => r.orderDate.isSome && r.sales.isSome) ∘ eraseStateRow)
          = (fun r : Row => r.orderDate.isSome && r.sales.isSome)
        from funext fun r => rfl]
  by_cases h : df.schema.hasOrderDate = true ∧ df.schema.hasSales = true ∧
      df.rows ≠ []
  · have h2 : (eraseState df).schema.hasOrderDate = true ∧
        (eraseState df).schema.hasSales = true ∧ (eraseState df).rows ≠ [] :=
      ⟨h.1, h.2.1, by simp [eraseState, h.2.2]⟩
    unfold trend_df
    rw [if_pos h2, if_pos h,
      show (eraseState df).schema.hasYear = df.schema.hasYear from rfl,
      hfilter, groupSum_eraseState dateYearLe (trendKey df.schema.hasYear)
        Row.sales (df.rows.filter (fun r => r.orderDate.isSome && r.sales.isSome))
        (fun r => rfl) (fun r => rfl)]
  · have h2 : ¬((eraseState df).schema.hasOrderDate = true ∧
        (eraseState df).schema.hasSales = true ∧ (eraseState df).rows ≠ []) :=
      fun hcon => h ⟨hcon.1, hcon.2.1,
        fun hnil => hcon.2.2 (by simp [eraseState, hnil])⟩
    unfold trend_df
    rw [if_neg h2, if_neg h]

theorem metrics_eraseState (df : DataFrame) :
    total_sales (eraseState df) = total_sales df ∧
    total_profit (eraseState df) = total_profit df ∧
    total_orders (eraseState df) = total_orders df ∧
    avg_profit_margin (eraseState df) = avg_profit_margin df := by
  have h1 : total_sales (eraseState df) = total_sales df := by
    unfold total_sales
    rw [show (eraseState df).schema.hasSales = df.schema.hasSales from rfl,
      show (eraseState df).rows = df.rows.map eraseStateRow from rfl,
      List.filterMap_map,
      show Row.sales ∘ eraseStateRow = Row.sales from funext fun r => rfl]
  have h2 : total_profit (eraseState df) = total_profit df := by
    unfold total_profit
    rw [show (eraseState df).schema.hasProfit = df.schema.hasProfit from rfl,
      show (eraseState df).rows = df.rows.map eraseStateRow from rfl,
      List.filterMap_map,
      show Row.profit ∘ eraseStateRow = Row.profit from funext fun r => rfl]
  have h3 : total_orders (eraseState df) = total_orders df := by
    unfold total_orders
    rw [show (eraseState df).schema.hasOrderId = df.schema.hasOrderId from rfl,
      show (eraseState df).rows = df.rows.map eraseStateRow from rfl,
      List.filterMap_map,
      show Row.orderId ∘ eraseStateRow = Row.orderId from funext fun r => rfl,
      List.length_map]
  refine ⟨h1, h2, h3, ?_⟩
  unfold avg_profit_margin
  rw [h1, h2]

/-! ### Claim C5: top-states projection -/

/-- C5.  When State and Sales are present and the view is non-empty, the
top-states projection produces a table with at most 10 entries, sorted
descending by summed sales, each entry carrying the exact null-skipping sum
of Sales over its state's rows, with pairwise-distinct states, and
containing for every grouped state either that state or only entries with
at least its sum (truncation keeps the top of the descending order).  When
the State column is absent the projection yields `none` (it is skipped, and
being a total function it raises nothing), and removing the State column
leaves all other projections and all four metrics unchanged. -/
theorem C5_top_states (df : DataFrame) :
    (df.schema.hasState = true ∧ df.schema.hasSales = true ∧ df.rows ≠ [] →
      ∃ t, state_sales df = some t) ∧
    (∀ t, state_sales df = some t →
      t.length ≤ 10 ∧
      t.Pairwise (fun a b => b.2 ≤ a.2) ∧
      (∀ p ∈ t,
        p.2 = ((df.rows.filter
          (fun r => decide (r.state = some p.1))).filterMap Row.sales).sum) ∧
      (t.map Prod.fst).Nodup ∧
      (∀ q ∈ groupSum strLe Row.state Row.sales df.rows,
        q ∈ t ∨ ∀ p ∈ t, q.2 ≤ p.2)) ∧
    (df.schema.hasState = false → state_sales df = none) ∧
    trend_df (eraseState df) = trend_df df ∧
    prod_df (eraseState df) = prod_df df ∧
    reg_df (eraseState df) = reg_df df ∧
    ship_df (eraseState df) = ship_df df ∧
    total_sales (eraseState df) = total_sales df ∧
    total_profit (eraseState df) = total_profit df ∧
    total_orders (eraseState df) = total_orders df ∧
    avg_profit_margin (eraseState df) = avg_profit_margin df := by
  rcases metrics_eraseState df with ⟨m1, m2, m3, m4⟩
  refine ⟨?_, ?_, ?_, trend_df_eraseState df, prod_df_eraseState df,
    reg_df_eraseState df, ship_df_eraseState df, m1, m2, m3, m4⟩
  · intro h
    exact ⟨_, by unfold state_sales; rw [if_pos h]⟩
  · intro t ht
    unfold state_sales at ht
    by_cases h : df.schema.hasState = true ∧ df.schema.hasSales = true ∧
        df.rows ≠ []
    · rw [if_pos h, Option.some.injEq] at ht
      subst ht
      set table := groupSum strLe Row.state Row.sales df.rows with htable
      have hsorted := pairwise_sortDesc table
      refine ⟨?_, ?_, ?_, ?_, ?_⟩
      · rw [List.length_take]
        exact min_le_left _ _
      · exact List.Pairwise.sublist (List.take_sublist 10 _) hsorted
      · intro p hp
        have hp2 : p ∈ table :=
          (mem_sortLe _ p table).mp (List.mem_of_mem_take hp)
        exact (mem_groupSum strLe Row.state Row.sales df.rows p hp2).1
      · have hn : (table.map Prod.fst).Nodup := by
          rw [htable, groupSum_fst]
          exact ((sortLe_perm _ _).nodup_iff).mpr (nodup_uniqueFS _)
        have hn2 : ((sortLe salesDescLe table).map Prod.fst).Nodup :=
          (((sortLe_perm salesDescLe table).map Prod.fst).nodup_iff).mpr hn
        rw [List.map_take]
        exact List.Nodup.sublist (List.take_sublist 10 _) hn2
      · intro q hq
        have hq2 : q ∈ sortLe salesDescLe table := (mem_sortLe _ q table).mpr hq
        rw [← List.take_append_drop 10 (sortLe salesDescLe table)] at hq2 hsorted
        rcases List.mem_append.mp hq2 with hq3 | hq3
        · exact Or.inl hq3
        · rcases List.pairwise_append.mp hsorted with ⟨-, -, hcross⟩
          exact Or.inr fun p hp => hcross p hp q hq3
    · rw [if_neg h] at ht
      exact absurd ht (by simp)
  · intro h
    unfold state_sales
    rw [if_neg (by simp [h])]

/-- Single-row dataset with State and Sales, for the C5 witness. -/
def dfS : DataFrame :=
  ⟨⟨false, false, false, false, false, false, true, true, false, false⟩,
    [mkRow none none none none (some "NY") (some 100) none none]⟩

/-- Witness for C5: on `dfS` the projection exists, evaluates to the single
entry ("NY", 100), and its stated properties hold there. -/
theorem C5_top_states_witness :
    state_sales dfS = some [("NY", (100 : ℚ))] ∧
    (∃ t, state_sales dfS = some t) ∧
    [("NY", (100 : ℚ))].length ≤ 10 := by
  have hev : state_sales dfS = some [("NY", (100 : ℚ))] := by
    with_unfolding_all decide
  exact ⟨hev, (C5_top_states dfS).1 ⟨rfl, rfl, by simp [dfS]⟩,
    (((C5_top_states dfS).2.1) _ hev).1⟩

/-! ### Claim C6: tie-break order of the ranking projections -/

/-- Two-row dataset whose first-seen sub-category order is Tables, Chairs,
both summing to 300. -/
def dfT : DataFrame :=
  ⟨⟨false, false, false, false, true, false, false, true, false, false⟩,
    [mkRow none none (some "Tables") none none (some 300) none none,
      mkRow none none (some "Chairs") none none (some 300) none none]⟩

/-- Counterexample to C6 as stated: the view's first-seen sub-category
order is `["Tables", "Chairs"]` with tied sums of 300 each, yet the ranking
emits `[("Chairs", 300), ("Tables", 300)]` — the grouping's ascending key
order, not the first-seen order the claim requires. -/
theorem C6_tie_break_cex :
    uniqueFS (dfT.rows.filterMap Row.subCategory) = ["Tables", "Chairs"] ∧
    prod_df dfT = some [("Chairs", (300 : ℚ)), ("Tables", 300)] ∧
    prod_df dfT ≠ some [("Tables", (300 : ℚ)), ("Chairs", 300)] := by
  refine ⟨by with_unfolding_all decide, ?_, ?_⟩ <;> with_unfolding_all decide

/-- C6 amended: on equal summed sales the descending sort preserves the
order produced by the grouping, but that order is pandas `groupby`'s
ascending group-key order, not first-seen order; the result is a pure
function of the view, hence identical across repeated runs. -/
theorem C6_tie_break (df : DataFrame) (t : List (String × ℚ)) (v : ℚ)
    (h : prod_df df = some t) :
    t.filter (fun p => decide (p.2 = v)) =
      (groupSum strLe Row.subCategory Row.sales df.rows).filter
        (fun p => decide (p.2 = v)) ∧
    ((groupSum strLe Row.subCategory Row.sales df.rows).map Prod.fst).Pairwise
      (fun a b => a ≤ b) := by
  constructor
  · unfold prod_df at h
    by_cases hc : df.schema.hasSubCategory = true ∧ df.schema.hasSales = true ∧
        df.rows ≠ []
    · rw [if_pos hc, Option.some.injEq] at h
      subst h
      refine filter_sortLe salesDescLe _ ?_ _
      intro a b ha hb
      have ha2 := of_decide_eq_true ha
      have hb2 := of_decide_eq_true hb
      exact decide_eq_true (le_of_eq (hb2.trans ha2.symm))
    · rw [if_neg hc] at h
      exact absurd h (by simp)
  · rw [groupSum_fst]
    have htot : ∀ a b : String, strLe a b = true ∨ strLe b a = true := by
      intro a b
      rcases le_total a b with hab | hab
      · exact Or.inl (decide_eq_true hab)
      · exact Or.inr (decide_eq_true hab)
    have htrans : ∀ a b c : String,
        strLe a b = true → strLe b c = true → strLe a c = true := by
      intro a b c hab hbc
      exact decide_eq_true (le_trans (of_decide_eq_true hab) (of_decide_eq_true hbc))
    exact (pairwise_sortLe strLe htot htrans _).imp of_decide_eq_true

/-- Witness for the amended C6 on the tied dataset `dfT`: the 300-sum
entries of the output are exactly the grouped table (in ascending key
order). -/
theorem C6_tie_break_witness :
    prod_df dfT = some [("Chairs", (300 : ℚ)), ("Tables", 300)] ∧
    [("Chairs", (300 : ℚ)), ("Tables", 300)].filter
        (fun p => decide (p.2 = (300 : ℚ))) =
      (groupSum strLe Row.subCategory Row.sales dfT.rows).filter
        (fun p => decide (p.2 = (300 : ℚ))) := by
  have hev : prod_df dfT = some [("Chairs", (300 : ℚ)), ("Tables", 300)] := by
    with_unfolding_all decide
  exact ⟨hev, (C6_tie_break dfT _ 300 hev).1⟩

/-! ### Exporter (src/src/app.py line 176): `filtered_df.to_csv(index=False)` -/

/-- Names of the present columns, in the frame's column order. -/
def colNames (sch : Schema) : List String :=
  (if sch.hasOrderId then ["Order ID"] else []) ++
  (if sch.hasOrderDate then ["Order Date"] else []) ++
  (if sch.hasShipMode then ["Ship Mode"] else []) ++
  (if sch.hasCategory then ["Category"] else []) ++
  (if sch.hasSubCategory then ["Sub-Category"] else []) ++
  (if sch.hasRegion then ["Region"] else []) ++
  (if sch.hasState then ["State"] else []) ++
  (if sch.hasSales then ["Sales"] else []) ++
  (if sch.hasProfit then ["Profit"] else []) ++
  (if sch.hasYear then ["Year"] else [])

/-- A null cell prints as the empty string in `to_csv`. -/
def renderOptStr (v : Option String) : String := v.getD ""

def renderOptNat (v : Option Nat) : String :=
  match v with
  | none => ""
  | some n => toString n

def renderOptQ (v : Option ℚ) : String :=
  match v with
  | none => ""
  | some q => toString q

def renderOptInt (v : Option Int) : String :=
  match v with
  | none => ""
  | some n => toString n

/-- One row's cells, in the order of `colNames`. -/
def renderRow (sch : Schema) (r : Row) : List String :=
  (if sch.hasOrderId then [renderOptStr r.orderId] else []) ++
  (if sch.hasOrderDate then [renderOptNat r.orderDate] else []) ++
  (if sch.hasShipMode then [renderOptStr r.shipMode] else []) ++
  (if sch.hasCategory then [renderOptStr r.category] else []) ++
  (if sch.hasSubCategory then [renderOptStr r.subCategory] else []) ++
  (if sch.hasRegion then [renderOptStr r.region] else []) ++
  (if sch.hasState then [renderOptStr r.state] else []) ++
  (if sch.hasSales then [renderOptQ r.sales] else []) ++
  (if sch.hasProfit then [renderOptQ r.profit] else []) ++
  (if sch.hasYear then [renderOptInt r.year] else [])

/-- The dataframe as a header record plus one record per row (no index
column is emitted: `index=False`). -/
def toTable (df : DataFrame) : List (List String) :=
  colNames df.schema :: df.rows.map (renderRow df.schema)

/-- `QUOTE_MINIMAL`: a field is quoted iff it holds the delimiter, the
quote char or a line break. -/
def needsQuote (s : String) : Bool :=
  s.data.any (fun c => c = ',' ∨ c = '"' ∨ c = '\n' ∨ c = '\r')

/-- Double every quote char (CSV quote escaping). -/
def dupQuotes : List Char → List Char
  | [] => []
  | c :: cs =>
      if c = '"' then '"' :: '"' :: dupQuotes cs else c :: dupQuotes cs

/-- Serialize one field, quoting when needed. -/
def escField (s : String) : List Char :=
  if needsQuote s then '"' :: (dupQuotes s.data ++ ['"']) else s.data

/-- Serialize one record: fields joined by commas. -/
def recordChars : List String → List Char
  | [] => []
  | [f] => escField f
  | f :: rest => escField f ++ ',' :: recordChars rest

/-- Serialize a table: every record is terminated by a newline. -/
def csvChars (t : List (List String)) : List Char :=
  (t.map (fun r => recordChars r ++ ['\n'])).flatten

/-- `filtered_df.to_csv(index=False)`. -/
def csv (df : DataFrame) : String := ⟨csvChars (toTable df)⟩

/-- Consume a quoted field body up to its closing quote; a doubled quote
is an escaped quote char. -/
def parseQuoted : List Char → List Char → List Char × List Char
  | [], acc => (acc, [])
  | c :: cs, acc =>
      if c = '"' then
        match cs with
        | [] => (acc, [])
        | c2 :: cs2 =>
            if c2 = '"' then parseQuoted cs2 (acc ++ ['"']) else (acc, cs)
      else parseQuoted cs (acc ++ [c])

/-- Consume an unquoted field up to a delimiter or record end. -/
def parseUnquoted : List Char → List Char → List Char × List Char
  | [], acc => (acc, [])
  | c :: cs, acc =>
      if c = ',' ∨ c = '\n' then (acc, c :: cs)
      else parseUnquoted cs (acc ++ [c])

/-- Consume one field: dispatch on an opening quote. -/
def parseField (cs : List Char) : List Char × List Char :=
  match cs with
  | [] => ([], [])
  | c :: cs2 => if c = '"' then parseQuoted cs2 [] else parseUnquoted cs []

/-- Consume one record (fuel bounds the number of fields). -/
def parseRecord1 : Nat → List Char → List String × List Char
  | 0, cs => ([], cs)
  | fuel + 1, cs =>
      let p := parseField cs
      match p.2 with
      | [] => ([⟨p.1⟩], [])
      | c :: cs2 =>
          if c = ',' then
            let q := parseRecord1 fuel cs2
            (⟨p.1⟩ :: q.1, q.2)
          else if c = '\n' then ([⟨p.1⟩], cs2)
          else ([⟨p.1⟩], c :: cs2)

/-- Consume all records (fuel bounds the number of records). -/
def parseRecords : Nat → List Char → List (List String)
  | 0, _ => []
  | fuel + 1, cs =>
      match cs with
      | [] => []
      | c :: cs2 =>
          let p := parseRecord1 ((c :: cs2).length + 1) (c :: cs2)
          p.1 :: parseRecords fuel p.2

/-- Parse CSV text back into its records. -/
def parseCsv (s : String) : List (List String) :=
  parseRecords (s.data.length + 1) s.data

/-! ### Round trip of the CSV encoding -/

theorem parseQuoted_dup (s : List Char) :
    ∀ acc rest, rest.head? ≠ some '"' →
      parseQuoted (dupQuotes s ++ '"' :: rest) acc = (acc ++ s, rest) := by
  induction s with
  | nil =>
    intro acc rest hr
    cases rest with
    | nil =>
      rw [show dupQuotes [] ++ '"' :: [] = ['"'] from rfl,
        parseQuoted.eq_def]
      simp
    | cons c cs =>
      have hc : ¬(c = '"') := fun h => hr (by rw [h]; rfl)
      rw [show dupQuotes [] ++ '"' :: c :: cs = '"' :: c :: cs from rfl,
        parseQuoted.eq_def]
      simp [hc]
  | cons a s ih =>
    intro acc rest hr
    by_cases ha : a = '"'
    · subst ha
      have h1 : dupQuotes ('"' :: s) ++ '"' :: rest =
          '"' :: '"' :: (dupQuotes s ++ '"' :: rest) := by
        simp [dupQuotes]
      rw [h1]
      have h2 : parseQuoted ('"' :: '"' :: (dupQuotes s ++ '"' :: rest)) acc =
          parseQuoted (dupQuotes s ++ '"' :: rest) (acc ++ ['"']) := by
        rw [parseQuoted.eq_def]
        simp
      rw [h2, ih (acc ++ ['"']) rest hr]
      simp
    · have h1 : dupQuotes (a :: s) ++ '"' :: rest =
          a :: (dupQuotes s ++ '"' :: rest) := by
        simp [dupQuotes, ha]
      rw [h1]
      have h2 : parseQuoted (a :: (dupQuotes s ++ '"' :: rest)) acc =
          parseQuoted (dupQuotes s ++ '"' :: rest) (acc ++ [a]) := by
        rw [parseQuoted.eq_def]
        simp [ha]
      rw [h2, ih (acc ++ [a]) rest hr]
      simp

theorem parseUnquoted_clean (s : List Char)
    (hs : ∀ c ∈ s, ¬(c = ',' ∨ c = '\n')) :
    ∀ acc rest, (rest.head? = some ',' ∨ rest.head? = some '\n') →
      parseUnquoted (s ++ rest) acc = (acc ++ s, rest) := by
  induction s with
  | nil =>
    intro acc rest hr
    cases rest with
    | nil => simp at hr
    | cons c cs =>
      have hc : c = ',' ∨ c = '\n' := by
        rcases hr with h | h <;> [left; right] <;>
          exact Option.some.inj h
      rw [show ([] : List Char) ++ c :: cs = c :: cs from rfl,
        parseUnquoted.eq_def]
      simp [hc]
  | cons a s ih =>
    intro acc rest hr
    have ha : ¬(a = ',' ∨ a = '\n') := hs a (List.mem_cons_self a s)
    have h2 : parseUnquoted ((a :: s) ++ rest) acc =
        parseUnquoted (s ++ rest) (acc ++ [a]) := by
      rw [show (a :: s) ++ rest = a :: (s ++ rest) from rfl,
        parseUnquoted.eq_def]
      simp [ha]
    rw [h2, ih (fun c hc => hs c (List.mem_cons_of_mem a hc)) (acc ++ [a]) rest hr]
    simp

theorem parseField_esc (f : String) (rest : List Char)
    (hr : rest.head? = some ',' ∨ rest.head? = some '\n') :
    parseField (escField f ++ rest) = (f.data, rest) := by
  have hrq : rest.head? ≠ some '"' := by
    rcases hr with h | h <;> rw [h] <;> intro hcon <;>
      exact absurd (Option.some.inj hcon) (by decide)
  by_cases hq : needsQuote f = true
  · rw [escField, if_pos hq]
    simp only [List.cons_append, List.append_assoc, List.nil_append]
    rw [parseField, if_pos rfl]
    exact parseQuoted_dup f.data [] rest hrq
  · rw [escField, if_neg hq]
    have hclean : ∀ c ∈ f.data, ¬(c = ',' ∨ c = '\n') := by
      intro c hc hcon
      apply hq
      unfold needsQuote
      refine List.any_eq_true.mpr ⟨c, hc, ?_⟩
      rcases hcon with h | h <;> simp [h]
    cases hd : f.data with
    | nil =>
      simp only [List.nil_append]
      cases rest with
      | nil => simp at hr
      | cons c cs =>
        have hc : c = ',' ∨ c = '\n' := by
          rcases hr with h | h <;> [left; right] <;> exact Option.some.inj h
        have hcq : ¬(c = '"') := by
          rcases hc with h | h <;> subst h <;> decide
        rw [parseField, if_neg hcq]
        have := parseUnquoted_clean [] (by simp) [] (c :: cs) hr
        simpa using this
    | cons a as =>
      have ha : ¬(a = ',' ∨ a = '\n') := by
        have : a ∈ f.data := by rw [hd]; exact List.mem_cons_self a as
        exact hclean a this
      have haq : ¬(a = '"') := by
        intro hcon
        apply hq
        unfold needsQuote
        refine List.any_eq_true.mpr ⟨a, by rw [hd]; exact List.mem_cons_self a as, ?_⟩
        simp [hcon]
      simp only [List.cons_append]
      rw [parseField, if_neg haq]
      have h3 := parseUnquoted_clean f.data hclean [] rest hr
      rw [show a :: (as ++ rest) = f.data ++ rest by rw [hd]; rfl, hd]
      simpa [hd] using h3

theorem parseRecord1_record (fields : List String) (hne : fields ≠ []) :
    ∀ fuel rest, fields.length ≤ fuel →
      parseRecord1 fuel (recordChars fields ++ '\n' :: rest) =
        (fields, rest) := by
  induction fields with
  | nil => exact absurd rfl hne
  | cons f fs ih =>
    intro fuel rest hfuel
    cases fuel with
    | zero => simp at hfuel
    | succ k =>
      cases fs with
      | nil =>
        have hp := parseField_esc f ('\n' :: rest) (Or.inr rfl)
        rw [show recordChars [f] = escField f from rfl]
        rw [parseRecord1.eq_def]
        simp only [hp]
        simp
      | cons g gs =>
        have hassoc : recordChars (f :: g :: gs) ++ '\n' :: rest =
            escField f ++ ',' :: (recordChars (g :: gs) ++ '\n' :: rest) := by
          rw [show recordChars (f :: g :: gs) =
            escField f ++ ',' :: recordChars (g :: gs) from rfl]
          simp
        rw [hassoc]
        have hp := parseField_esc f
          (',' :: (recordChars (g :: gs) ++ '\n' :: rest)) (Or.inl rfl)
        rw [parseRecord1.eq_def]
        simp only [hp]
        have hrec := ih (by simp) k (rest) (Nat.le_of_succ_le_succ hfuel)
        simp [hrec]

theorem recordChars_length (fields : List String) :
    fields.length ≤ (recordChars fields).length + 1 := by
  induction fields with
  | nil => simp [recordChars]
  | cons f fs ih =>
    cases fs with
    | nil => simp [recordChars]
    | cons g gs =>
      rw [show recordChars (f :: g :: gs) =
        escField f ++ ',' :: recordChars (g :: gs) from rfl]
      simp only [List.length_cons, List.length_append] at ih ⊢
      omega

theorem csvChars_length (t : List (List String)) :
    t.length ≤ (csvChars t).length := by
  induction t with
  | nil => simp [csvChars]
  | cons r rs ih =>
    rw [show csvChars (r :: rs) =
      (recordChars r ++ ['\n']) ++ csvChars rs from rfl]
    simp only [List.length_cons, List.length_append, List.length_singleton]
    omega

theorem parseRecords_cons (k : Nat) (cs : List Char) (h : cs ≠ []) :
    parseRecords (k + 1) cs =
      (parseRecord1 (cs.length + 1) cs).1 ::
        parseRecords k (parseRecord1 (cs.length + 1) cs).2 := by
  cases cs with
  | nil => exact absurd rfl h
  | cons c cs2 => rfl

theorem parseRecords_csv (t : List (List String)) (ht : ∀ r ∈ t, r ≠ []) :
    ∀ fuel, t.length ≤ fuel → parseRecords fuel (csvChars t) = t := by
  induction t with
  | nil =>
    intro fuel hfuel
    cases fuel with
    | zero => rfl
    | succ k => rfl
  | cons r rs ih =>
    intro fuel hfuel
    cases fuel with
    | zero => simp at hfuel
    | succ k =>
      have hcs : csvChars (r :: rs) =
          recordChars r ++ '\n' :: csvChars rs := by
        rw [show csvChars (r :: rs) =
          (recordChars r ++ ['\n']) ++ csvChars rs from rfl]
        simp
      have hne : csvChars (r :: rs) ≠ [] := by
        rw [hcs]
        intro hcon
        rcases List.append_eq_nil.mp hcon with ⟨-, h2⟩
        exact List.cons_ne_nil _ _ h2
      rw [parseRecords_cons k _ hne]
      have hflen : r.length ≤
          (recordChars r ++ '\n' :: csvChars rs).length + 1 := by
        have := recordChars_length r
        simp only [List.length_append, List.length_cons]
        omega
      have hrec : parseRecord1
          ((recordChars r ++ '\n' :: csvChars rs).length + 1)
          (recordChars r ++ '\n' :: csvChars rs) = (r, csvChars rs) :=
        parseRecord1_record r (ht r (List.mem_cons_self r rs)) _
          (csvChars rs) hflen
      rw [hcs, hrec]
      exact congrArg _ (ih (fun x hx => ht x (List.mem_cons_of_mem r hx)) k
        (Nat.le_of_succ_le_succ hfuel))

theorem renderRow_length (sch : Schema) (r : Row) :
    (renderRow sch r).length = (colNames sch).length := by
  simp only [renderRow, colNames, List.length_append, apply_ite List.length,
    List.length_singleton, List.length_nil]

/-! ### Claim C7: export round trip -/

/-- C7.  For every view with at least one column, serializing with the
Exporter (`to_csv(index=False)`) and parsing the text back yields exactly
the header (the view's columns, in order) followed by every row's rendered
cells in the view's row order: same row count, same column set, and cell
values faithful up to their textual rendering; no index column appears. -/
theorem C7_export_roundtrip (df : DataFrame) (h : colNames df.schema ≠ []) :
    parseCsv (csv df) =
      colNames df.schema :: df.rows.map (renderRow df.schema) ∧
    (parseCsv (csv df)).length = df.rows.length + 1 ∧
    (∀ row ∈ parseCsv (csv df), row.length = (colNames df.schema).length) := by
  have hne : ∀ r ∈ toTable df, r ≠ [] := by
    intro r hr
    rcases List.mem_cons.mp hr with hr | hr
    · exact hr ▸ h
    · rcases List.mem_map.mp hr with ⟨x, -, hx⟩
      intro hcon
      apply h
      have := renderRow_length df.schema x
      rw [hx, hcon] at this
      exact List.length_eq_zero.mp this.symm
  have main : parseCsv (csv df) = toTable df := by
    unfold parseCsv csv
    exact parseRecords_csv (toTable df) hne _
      (le_trans (csvChars_length _) (Nat.le_succ _))
  refine ⟨main, ?_, ?_⟩
  · rw [main, toTable, List.length_cons, List.length_map]
  · intro row hrow
    rw [main, toTable] at hrow
    rcases List.mem_cons.mp hrow with hrow | hrow
    · rw [hrow]
    · rcases List.mem_map.mp hrow with ⟨x, -, hx⟩
      rw [← hx]
      exact renderRow_length df.schema x

/-- Witness for C7: the two-row Category-only dataset round-trips to its
header plus both rows. -/
theorem C7_export_roundtrip_witness :
    parseCsv (csv dfC1) = [["Category"], ["Chairs"], ["Tables"]] ∧
    (parseCsv (csv dfC1)).length = dfC1.rows.length + 1 :=
  ⟨by with_unfolding_all decide,
    (C7_export_roundtrip dfC1 (by decide)).2.1⟩

/-! ### Dataset Loader (src/src/app.py lines 14–43) -/

/-- One raw record as produced by `pd.read_csv`, before the loader's
coercions: each cell is its textual content, `none` = empty cell. -/
structure RawRow where
  orderId : Option String
  orderDate : Option String
  shipMode : Option String
  category : Option String
  subCategory : Option String
  region : Option String
  state : Option String
  sales : Option String
  profit : Option String
  year : Option String
deriving Repr, DecidableEq

/-- The raw CSV file: present columns and raw records. -/
structure RawTable where
  schema : Schema
  rows : List RawRow
deriving Repr, DecidableEq

/-- Numeric value of a digit string (caller guarantees digits). -/
def natOfDigits (cs : List Char) : Nat :=
  cs.foldl (fun n c => n * 10 + (c.toNat - 48)) 0

/-- Split a character list on a separator (model of `str.split(sep)`). -/
def splitOnChar (sep : Char) : List Char → List (List Char)
  | [] => [[]]
  | c :: cs =>
      if c = sep then [] :: splitOnChar sep cs
      else
        match splitOnChar sep cs with
        | [] => [[c]]
        | g :: gs => (c :: g) :: gs

/-- Parse a nonempty all-digit character list. -/
def parseNatL (cs : List Char) : Option Nat :=
  if cs ≠ [] ∧ cs.all (fun c => c.isDigit) then some (natOfDigits cs)
  else none

/-- Model of `pd.to_datetime(·, errors="coerce", dayfirst=True)` on the
dataset's `DD/MM/YYYY` format: a parsable date becomes the sortable code
`y*10000 + m*100 + d`, anything else becomes null (`NaT`), never an
error. -/
def parseDateDMY (s : String) : Option Nat :=
  match splitOnChar '/' s.data with
  | [d, m, y] =>
      match parseNatL d, parseNatL m, parseNatL y with
      | some dn, some mn, some yn =>
          if 1 ≤ dn ∧ dn ≤ 31 ∧ 1 ≤ mn ∧ mn ≤ 12 then
            some (yn * 10000 + mn * 100 + dn)
          else none
      | _, _, _ => none
  | _ => none

/-- Decimal value of an integer part and fractional digits. -/
def decValue (ip fp : List Char) : ℚ :=
  (natOfDigits ip : ℚ) + (natOfDigits fp : ℚ) / (10 : ℚ) ^ fp.length

/-- Model of `pd.to_numeric(·, errors="coerce")` on one cell: an optional
sign, digits and an optional fractional part; anything unparsable becomes
null (`NaN`), never an error. -/
def parseDecQ (s : String) : Option ℚ :=
  let core : List Char → Option ℚ := fun cs =>
    match splitOnChar '.' cs with
    | [ip] =>
        if ip ≠ [] ∧ ip.all (fun c => c.isDigit) then
          some ((natOfDigits ip : ℚ))
        else none
    | [ip, fp] =>
        if (ip ++ fp) ≠ [] ∧ (ip ++ fp).all (fun c => c.isDigit) then
          some (decValue ip fp)
        else none
    | _ => none
  match s.data with
  | '-' :: rest => (core rest).map (fun q => -q)
  | '+' :: rest => core rest
  | cs => core cs

/-- Ascending date order with nulls (`NaT`) last, as
`sort_values("Order Date")` leaves them (`na_position="last"`). -/
def dateLe (a b : Option Nat) : Bool :=
  match a, b with
  | none, none => true
  | none, some _ => false
  | some _, none => true
  | some x, some y => decide (x ≤ y)

/-- The year cell fed to the Int64 coercion: the raw Year column coerced
with `to_numeric` when it exists, else the parsed date's year component
(`.dt.year`), else null. -/
def yearQ (sch : Schema) (rr : RawRow) (dt : Option Nat) : Option ℚ :=
  if sch.hasYear then rr.year.bind parseDecQ
  else if sch.hasOrderDate then dt.map (fun d => ((d / 10000 : Nat) : ℚ))
  else none

/-- Convert one raw row, given its parsed date.  The only failure is
`astype("Int64")` on a Year value that parsed to a non-integral number
("cannot safely cast"); unparsable cells just become null. -/
def convRow (sch : Schema) (pr : RawRow × Option Nat) : Except String Row :=
  match yearQ sch pr.1 pr.2 with
  | none =>
      Except.ok
        { orderId := pr.1.orderId
          orderDate := pr.2
          shipMode := pr.1.shipMode
          category := pr.1.category
          subCategory := pr.1.subCategory
          region := pr.1.region
          state := pr.1.state
          sales := if sch.hasSales then pr.1.sales.bind parseDecQ else none
          profit := if sch.hasProfit then pr.1.profit.bind parseDecQ else none
          year := none }
  | some q =>
      if q.den = 1 then
        Except.ok
          { orderId := pr.1.orderId
            orderDate := pr.2
            shipMode := pr.1.shipMode
            category := pr.1.category
            subCategory := pr.1.subCategory
            region := pr.1.region
            state := pr.1.state
            sales := if sch.hasSales then pr.1.sales.bind parseDecQ else none
            profit := if sch.hasProfit then pr.1.profit.bind parseDecQ else none
            year := some q.num }
      else Except.error "cannot safely cast non-equivalent float64 to int64"

/-- The total conversion that `convRow` computes whenever it succeeds. -/
def convRowOk (sch : Schema) (pr : RawRow × Option Nat) : Row :=
  { orderId := pr.1.orderId
    orderDate := pr.2
    shipMode := pr.1.shipMode
    category := pr.1.category
    subCategory := pr.1.subCategory
    region := pr.1.region
    state := pr.1.state
    sales := if sch.hasSales then pr.1.sales.bind parseDecQ else none
    profit := if sch.hasProfit then pr.1.profit.bind parseDecQ else none
    year := (yearQ sch pr.1 pr.2).bind
      (fun q => if q.den = 1 then some q.num else none) }

/-- Sequence the per-row conversions, stopping at the first error. -/
def seqRows : List (Except String Row) → Except String (List Row)
  | [] => Except.ok []
  | Except.error e :: _ => Except.error e
  | Except.ok r :: rest =>
      match seqRows rest with
      | Except.error e => Except.error e
      | Except.ok rs => Except.ok (r :: rs)

/-- Pair every raw row with its parsed order date (null when the column is
absent or the cell unparsable). -/
def datedRows (raw : RawTable) : List (RawRow × Option Nat) :=
  raw.rows.map (fun rr =>
    (rr, if raw.schema.hasOrderDate then rr.orderDate.bind parseDateDMY
      else none))

/-- The dated rows in load order: sorted ascending by parsed date when the
Order Date column exists (`sort_values("Order Date")`), else unchanged. -/
def loadRows (raw : RawTable) : List (RawRow × Option Nat) :=
  if raw.schema.hasOrderDate then
    sortLe (fun a b => dateLe a.2 b.2) (datedRows raw)
  else datedRows raw

/-- `load_data` (lines 14–43): parse Order Date (coercing failures to
null), sort ascending by date when the column exists, derive Year from the
date when absent, coerce Sales and Profit to numeric with failures as
null, and coerce Year to nullable Int64 (the one step that can raise). -/
def load_data (raw : RawTable) : Except String DataFrame :=
  match seqRows ((loadRows raw).map (convRow raw.schema)) with
  | Except.error e => Except.error e
  | Except.ok rs =>
      Except.ok
        ⟨{ raw.schema with
            hasYear := raw.schema.hasYear || raw.schema.hasOrderDate }, rs⟩

/-! ### Claim C8: loader coercion behaviour -/

theorem convRow_ok (sch : Schema) (pr : RawRow × Option Nat)
    (hy : ∀ q, yearQ sch pr.1 pr.2 = some q → q.den = 1) :
    convRow sch pr = Except.ok (convRowOk sch pr) := by
  unfold convRow convRowOk
  cases hq : yearQ sch pr.1 pr.2 with
  | none => simp
  | some q =>
    have hden := hy q hq
    simp [hden]

theorem seqRows_ok (l : List (RawRow × Option Nat))
    (f : RawRow × Option Nat → Except String Row)
    (g : RawRow × Option Nat → Row)
    (h : ∀ x ∈ l, f x = Except.ok (g x)) :
    seqRows (l.map f) = Except.ok (l.map g) := by
  induction l with
  | nil => rfl
  | cons x xs ih =>
    rw [List.map_cons, List.map_cons,
      h x (List.mem_cons_self x xs), seqRows,
      ih (fun y hy => h y (List.mem_cons_of_mem x hy))]

theorem yearQ_den_one (raw : RawTable)
    (hy : raw.schema.hasYear = true →
      ∀ rr ∈ raw.rows, ∀ q, rr.year.bind parseDecQ = some q → q.den = 1)
    (pr : RawRow × Option Nat) (hpr : pr.1 ∈ raw.rows) :
    ∀ q, yearQ raw.schema pr.1 pr.2 = some q → q.den = 1 := by
  intro q hq
  unfold yearQ at hq
  by_cases h1 : raw.schema.hasYear = true
  · rw [if_pos h1] at hq
    exact hy h1 pr.1 hpr q hq
  · rw [if_neg h1] at hq
    by_cases h2 : raw.schema.hasOrderDate = true
    · rw [if_pos h2] at hq
      rcases Option.map_eq_some'.mp hq with ⟨d, -, hd⟩
      rw [← hd]
      exact Rat.den_natCast _
    · rw [if_neg h2] at hq
      simp at hq

set_option maxRecDepth 2048 in
/-- C8.  For every raw table whose parsable Year cells are all integral
(unparsable Year cells are unconstrained — they become null), the loader
succeeds: no unparsable date, Sales, Profit or Year cell raises.  The
loaded rows are exactly (up to the date sort) the per-row coercions
`convRowOk`, whose date is the `errors="coerce"` parse of the date cell,
whose sales/profit are the `errors="coerce"` numeric parses, and whose
year is derived from the parsed date's year component when no Year column
exists; Year carries a nullable integer.  Concrete unparsable cells
evaluate to null. -/
theorem C8_loader_coercion (raw : RawTable)
    (hy : raw.schema.hasYear = true →
      ∀ rr ∈ raw.rows, ∀ q, rr.year.bind parseDecQ = some q → q.den = 1) :
    (∃ df, load_data raw = Except.ok df ∧
      df.schema.hasYear = (raw.schema.hasYear || raw.schema.hasOrderDate) ∧
      List.Perm df.rows ((datedRows raw).map (convRowOk raw.schema))) ∧
    (∀ pr : RawRow × Option Nat,
      (convRowOk raw.schema pr).orderDate = pr.2 ∧
      (convRowOk raw.schema pr).sales =
        (if raw.schema.hasSales then pr.1.sales.bind parseDecQ else none) ∧
      (convRowOk raw.schema pr).profit =
        (if raw.schema.hasProfit then pr.1.profit.bind parseDecQ else none) ∧
      (raw.schema.hasYear = false → raw.schema.hasOrderDate = true →
        (convRowOk raw.schema pr).year =
          pr.2.map (fun d : Nat => ((d / 10000 : Nat) : Int)))) ∧
    (∀ rr : RawRow, ∀ dt,
      (rr, dt) ∈ datedRows raw →
        dt = (if raw.schema.hasOrderDate then rr.orderDate.bind parseDateDMY
          else none)) ∧
    parseDecQ "7 seas" = none ∧ parseDateDMY "Superstore" = none ∧
    parseDecQ "12.5" = some (25 / 2) ∧
    parseDateDMY "31/10/2015" = some 20151031 := by
  have hmem : ∀ pr ∈ loadRows raw, pr.1 ∈ raw.rows := by
    intro pr hpr
    have hpr2 : pr ∈ datedRows raw := by
      unfold loadRows at hpr
      by_cases h : raw.schema.hasOrderDate = true
      · rw [if_pos h] at hpr
        exact (mem_sortLe _ _ _).mp hpr
      · rw [if_neg h] at hpr
        exact hpr
    rcases List.mem_map.mp hpr2 with ⟨rr, hrr, hre⟩
    rw [← hre]
    exact hrr
  refine ⟨?_, ?_, ?_, by with_unfolding_all decide,
    by with_unfolding_all decide, ?_, ?_⟩
  · have hconv : seqRows ((loadRows raw).map (convRow raw.schema)) =
        Except.ok ((loadRows raw).map (convRowOk raw.schema)) := by
      refine seqRows_ok _ _ _ fun pr hpr => ?_
      exact convRow_ok raw.schema pr (yearQ_den_one raw hy pr (hmem pr hpr))
    refine ⟨⟨{ raw.schema with
        hasYear := raw.schema.hasYear || raw.schema.hasOrderDate },
      (loadRows raw).map (convRowOk raw.schema)⟩, ?_, rfl, ?_⟩
    · unfold load_data
      rw [hconv]
    · simp only
      unfold loadRows
      by_cases h : raw.schema.hasOrderDate = true
      · rw [if_pos h]
        exact (sortLe_perm _ _).map (convRowOk raw.schema)
      · rw [if_neg h]
  · intro pr
    refine ⟨rfl, rfl, rfl, ?_⟩
    intro h1 h2
    rcases hp2 : pr.2 with - | d
    · simp [convRowOk, yearQ, h1, h2, hp2]
    · simp [convRowOk, yearQ, h1, h2, hp2]
  · intro rr dt hmem2
    rcases List.mem_map.mp hmem2 with ⟨rr2, hrr2, hre⟩
    rcases Prod.mk.injEq .. |>.mp hre with ⟨he1, he2⟩
    rw [← he2, he1]
  · have h1 : splitOnChar '.' ['1', '2', '.', '5'] = [['1', '2'], ['5']] := by
      decide
    rw [show parseDecQ "12.5" =
      (match splitOnChar '.' ['1', '2', '.', '5'] with
        | [ip] =>
            if ip ≠ [] ∧ ip.all (fun c => c.isDigit) then
              some ((natOfDigits ip : ℚ))
            else none
        | [ip, fp] =>
            if (ip ++ fp) ≠ [] ∧ (ip ++ fp).all (fun c => c.isDigit) then
              some (decValue ip fp)
            else none
        | _ => none) from rfl]
    rw [h1]
    norm_num [decValue, natOfDigits]
    constructor
    · decide
    · norm_num [show ('1').toNat = 49 from by decide,
        show ('2').toNat = 50 from by decide,
        show ('5').toNat = 53 from by decide]
  · have h1 : splitOnChar '/' "31/10/2015".data =
        [['3', '1'], ['1', '0'], ['2', '0', '1', '5']] := by decide
    have h2 : parseNatL ['3', '1'] = some 31 := by decide
    have h3 : parseNatL ['1', '0'] = some 10 := by decide
    have h4 : parseNatL ['2', '0', '1', '5'] = some 2015 := by decide
    simp [parseDateDMY, h1, h2, h3, h4]

/-- Raw table with an unparsable date cell and an unparsable sales cell,
plus a parsable row, for the loader witnesses. -/
def rawW : RawTable :=
  ⟨⟨false, true, false, false, false, false, false, true, false, false⟩,
    [{ orderId := none, orderDate := some "notadate", shipMode := none,
       category := none, subCategory := none, region := none, state := none,
       sales := some "oops", profit := none, year := none },
     { orderId := none, orderDate := some "3/1/15", shipMode := none,
       category := none, subCategory := none, region := none, state := none,
       sales := some "100", profit := none, year := none }]⟩

/-- The dataframe the loader produces from `rawW`: the unparsable cells
became null, the parsable row sorted first (nulls last), and Year was
derived from the date. -/
def dfW : DataFrame :=
  ⟨⟨false, true, false, false, false, false, false, true, false, true⟩,
    [{ orderId := none, orderDate := some 150103, shipMode := none,
       category := none, subCategory := none, region := none, state := none,
       sales := some 100, profit := none, year := some 15 },
     { orderId := none, orderDate := none, shipMode := none,
       category := none, subCategory := none, region := none, state := none,
       sales := none, profit := none, year := none }]⟩

/-- Witness for C8: the loader succeeds on `rawW`, with both unparsable
cells coerced to null and Year derived from the parsed date. -/
theorem C8_loader_coercion_witness :
    load_data rawW = Except.ok dfW ∧
    (∃ df, load_data rawW = Except.ok df ∧
      df.schema.hasYear = (rawW.schema.hasYear || rawW.schema.hasOrderDate) ∧
      List.Perm df.rows ((datedRows rawW).map (convRowOk rawW.schema))) :=
  ⟨by with_unfolding_all rfl,
    (C8_loader_coercion rawW (fun h => by simp [rawW] at h)).1⟩

/-! ### Claim C9: load-time sort invariant -/

theorem dateLe_total (a b : Option Nat) :
    dateLe a b = true ∨ dateLe b a = true := by
  rcases a with - | x <;> rcases b with - | y <;> simp [dateLe] <;> omega

theorem dateLe_trans (a b c : Option Nat) (hab : dateLe a b = true)
    (hbc : dateLe b c = true) : dateLe a c = true := by
  rcases a with - | x <;> rcases b with - | y <;> rcases c with - | z <;>
    simp [dateLe] at * <;> omega

theorem convRow_ok_inv (sch : Schema) (pr : RawRow × Option Nat) (r : Row)
    (h : convRow sch pr = Except.ok r) : r = convRowOk sch pr := by
  unfold convRow at h
  cases hq : yearQ sch pr.1 pr.2 with
  | none =>
    rw [hq] at h
    simp only [Except.ok.injEq] at h
    rw [← h]
    unfold convRowOk
    rw [hq]
    simp
  | some q =>
    rw [hq] at h
    by_cases hden : q.den = 1
    · simp only [hden, if_pos, if_true, ite_true, Except.ok.injEq] at h
      rw [← h]
      unfold convRowOk
      rw [hq]
      simp [hden]
    · simp [hden] at h

theorem seqRows_ok_inv (sch : Schema) :
    ∀ (l : List (RawRow × Option Nat)) (rs : List Row),
      seqRows (l.map (convRow sch)) = Except.ok rs →
      rs = l.map (convRowOk sch) := by
  intro l
  induction l with
  | nil =>
    intro rs h
    simp only [List.map_nil, seqRows, Except.ok.injEq] at h
    rw [← h]
    rfl
  | cons x xs ih =>
    intro rs h
    rw [List.map_cons] at h
    cases hx : convRow sch x with
    | error e =>
      rw [hx] at h
      exact absurd h (by simp [seqRows])
    | ok r =>
      rw [hx] at h
      cases hrest : seqRows (xs.map (convRow sch)) with
      | error e =>
        rw [seqRows, hrest] at h
        exact absurd h (by simp)
      | ok rest =>
        rw [seqRows, hrest] at h
        simp only [Except.ok.injEq] at h
        rw [← h, List.map_cons, convRow_ok_inv sch x r hx, ih rest hrest]

/-- C9.  Every dataset the loader returns is sorted ascending by order
date (nulls last) whenever the Order Date column exists — the sort happens
inside `load_data` itself, once.  Downstream, filtering only removes rows
(the view is a sublist, so it keeps the loaded order and stays sorted),
and the Exporter emits the view's rows in exactly the view's order; the
metrics are scalars and do not touch the rows. -/
theorem C9_sort_invariant (raw : RawTable) (df : DataFrame)
    (hld : load_data raw = Except.ok df) :
    (raw.schema.hasOrderDate = true →
      df.rows.Pairwise (fun a b => dateLe a.orderDate b.orderDate = true)) ∧
    (∀ s : Selection,
      (filtered_df df s).rows.Sublist df.rows ∧
      (raw.schema.hasOrderDate = true →
        (filtered_df df s).rows.Pairwise
          (fun a b => dateLe a.orderDate b.orderDate = true))) ∧
    (∀ s : Selection,
      toTable (filtered_df df s) =
        colNames df.schema :: (filtered_df df s).rows.map
          (renderRow df.schema)) := by
  have hrows : df.rows = (loadRows raw).map (convRowOk raw.schema) := by
    unfold load_data at hld
    cases hseq : seqRows ((loadRows raw).map (convRow raw.schema)) with
    | error e =>
      rw [hseq] at hld
      exact absurd hld (by simp)
    | ok rs =>
      rw [hseq] at hld
      simp only [Except.ok.injEq] at hld
      rw [← hld]
      exact seqRows_ok_inv raw.schema (loadRows raw) rs hseq
  have hsorted : raw.schema.hasOrderDate = true →
      df.rows.Pairwise (fun a b => dateLe a.orderDate b.orderDate = true) := by
    intro hod
    rw [hrows]
    rw [List.pairwise_map]
    have : (loadRows raw).Pairwise
        (fun a b => dateLe a.2 b.2 = true) := by
      unfold loadRows
      rw [if_pos hod]
      exact pairwise_sortLe
        (fun a b : RawRow × Option Nat => dateLe a.2 b.2)
        (fun a b => dateLe_total a.2 b.2)
        (fun a b c => dateLe_trans a.2 b.2 c.2) _
    exact this.imp (fun h => h)
  refine ⟨hsorted, ?_, ?_⟩
  · intro s
    constructor
    · rw [filtered_df_rows]
      exact List.filter_sublist df.rows
    · intro hod
      rw [filtered_df_rows]
      exact List.Pairwise.sublist (List.filter_sublist df.rows) (hsorted hod)
  · intro s
    rw [toTable, filtered_df_schema]

/-- Witness for C9: the loaded `dfW` is date-sorted (nulls last) and its
filtered views keep that order. -/
theorem C9_sort_invariant_witness :
    dfW.rows.Pairwise (fun a b => dateLe a.orderDate b.orderDate = true) ∧
    (filtered_df dfW ⟨none, none, none, none⟩).rows.Sublist dfW.rows :=
  ⟨(C9_sort_invariant rawW dfW (by with_unfolding_all rfl)).1 rfl,
    ((C9_sort_invariant rawW dfW (by with_unfolding_all rfl)).2.1
      ⟨none, none, none, none⟩).1⟩

end SalesApp
